import Mathlib

/-!
# Bet lifecycle and ledger settlement: a shallow embedding of `src/lib/betStore.ts`

This file embeds the in-memory betting store of the repository
(`friend-bets-go`, file `src/lib/betStore.ts`) into Lean and proves, or
refutes, the specification's claims about it.

Modelling conventions:
* TypeScript string-literal unions used in typed positions (`'A' | 'B'`,
  `'vote' | 'arbiter'`) become inductive types.  The `status` field is kept
  as a `String`, because `updateBetStatus` takes an arbitrary `string` and
  writes it with `status as any`.
* `Date` values become `Nat` timestamps; every operation that calls
  `new Date()` in the source takes the current time as an explicit `now`
  argument.
* JavaScript `Map`s become association lists (`List (String × _)`) with
  JS `Map.get`/`Map.set` semantics (`mapLookup` / `mapSet`).
* `Math.random`-based id generation (`generateId`, `generateInviteCode`)
  is determinized by a per-store counter `nextId`; `genId` renders the
  counter as a string.  Only freshness (injectivity) of generated ids is
  used in proofs, mirroring the source's assumption that random ids do
  not collide.
* JS `number` amounts (`stake`, ledger `amount`) become `ℚ`, so that the
  settlement division `stake * losers.length / winners.length` is exact.
* Methods returning `T | null` return `Option`; methods that also mutate
  the store return the updated store explicitly.
-/

namespace FriendBets

inductive Side : Type
  | A
  | B
deriving DecidableEq

inductive ProofType : Type
  | vote
  | arbiter
deriving DecidableEq

/-- `interface User` of the source. -/
structure User : Type where
  id : String
  email : String
  displayName : String
  avatarUrl : Option String
deriving DecidableEq

/-- `interface Group` of the source. -/
structure Group : Type where
  id : String
  name : String
  creatorId : String
  inviteCode : String
  memberIds : List String
  createdAt : Nat
deriving DecidableEq

/-- `interface BetParticipant` of the source. -/
structure BetParticipant : Type where
  userId : String
  side : Side
  acceptedAt : Nat
deriving DecidableEq

/-- `interface Bet` of the source.  `status` is a `String` because
`updateBetStatus(betId, status: string)` assigns `status as any`. -/
structure Bet : Type where
  id : String
  groupId : String
  creatorId : String
  title : String
  description : String
  sideA : String
  sideB : String
  stake : ℚ
  eventDate : Nat
  status : String
  proofType : ProofType
  arbiterId : Option String
  winnerSide : Option Side
  participants : List BetParticipant
  createdAt : Nat
deriving DecidableEq

/-- `interface LedgerEntry` of the source. -/
structure LedgerEntry : Type where
  id : String
  userId : String
  betId : String
  amount : ℚ
  createdAt : Nat
deriving DecidableEq

/-- JS `Map.get`: the value of the first (unique) entry with the given key. -/
def mapLookup {β : Type} : List (String × β) → String → Option β
  | [], _ => none
  | (k', v) :: rest, k => if k' = k then some v else mapLookup rest k

/-- JS `Map.set`: replace the entry with the given key, or append a new one. -/
def mapSet {β : Type} : List (String × β) → String → β → List (String × β)
  | [], k, v => [(k, v)]
  | (k', v') :: rest, k, v =>
      if k' = k then (k, v) :: rest else (k', v') :: mapSet rest k v

/-- The private fields of `class BetStore`.  `nextId` determinizes
`generateId`/`generateInviteCode` (see the module comment). -/
structure BetStore : Type where
  users : List (String × User)
  groups : List (String × Group)
  bets : List (String × Bet)
  ledger : List LedgerEntry
  groupMembers : List (String × List String)
  nextId : Nat
deriving DecidableEq

/-- Deterministic stand-in for `generateId`: distinct counters give distinct
ids, which is all the source relies on from `Math.random`. -/
def genId (n : Nat) : String :=
  String.mk (List.replicate (n + 1) 'i')

/-- The store before any operation has run. -/
def emptyStore : BetStore :=
  { users := [], groups := [], bets := [], ledger := [], groupMembers := [],
    nextId := 0 }

/-- `addUser`: insert a user under a fresh id. -/
def addUser (s : BetStore) (email displayName : String)
    (avatarUrl : Option String) : BetStore × User :=
  let id := genId s.nextId
  let u : User := { id := id, email := email, displayName := displayName,
                    avatarUrl := avatarUrl }
  ({ s with users := mapSet s.users id u, nextId := s.nextId + 1 }, u)

/-- `createGroup`: fresh id and invite code, creator is the sole member. -/
def createGroup (s : BetStore) (name creatorId : String) (now : Nat) :
    BetStore × Group :=
  let id := genId s.nextId
  let code := genId (s.nextId + 1)
  let g : Group := { id := id, name := name, creatorId := creatorId,
                     inviteCode := code, memberIds := [creatorId],
                     createdAt := now }
  ({ s with groups := mapSet s.groups id g,
            groupMembers := mapSet s.groupMembers id [creatorId],
            nextId := s.nextId + 2 }, g)

/-- `Set.add` on the `groupMembers` entry of a group (no-op when the group
has no entry; the source would throw on its non-null assertion there,
which cannot happen after `createGroup`). -/
def addMember (m : List (String × List String)) (gid userId : String) :
    List (String × List String) :=
  match mapLookup m gid with
  | none => m
  | some members =>
      if userId ∈ members then m else mapSet m gid (members ++ [userId])

/-- `joinGroup`: look the group up by invite code; fail when unknown or the
user is already a member; otherwise append the user to the membership. -/
def joinGroup (s : BetStore) (inviteCode userId : String) :
    BetStore × Option Group :=
  match s.groups.find? (fun p => p.2.inviteCode = inviteCode) with
  | none => (s, none)
  | some (gid, g) =>
      if userId ∈ g.memberIds then (s, none)
      else
        let g' := { g with memberIds := g.memberIds ++ [userId] }
        ({ s with groups := mapSet s.groups gid g',
                  groupMembers := addMember s.groupMembers gid userId },
         some g')

/-- The argument of `createBet`: `Omit<Bet, 'id' | 'status' | 'participants'
| 'createdAt'>`.  Note that the optional `winnerSide` field is *not* omitted
by the source's type and is spread into the new bet. -/
structure BetInput : Type where
  groupId : String
  creatorId : String
  title : String
  description : String
  sideA : String
  sideB : String
  stake : ℚ
  eventDate : Nat
  proofType : ProofType
  arbiterId : Option String
  winnerSide : Option Side
deriving DecidableEq

/-- `createBet`: fresh id, status `draft`, no participants; all other
fields (including `winnerSide`) are copied from the input. -/
def createBet (s : BetStore) (input : BetInput) (now : Nat) :
    BetStore × Bet :=
  let id := genId s.nextId
  let newBet : Bet :=
    { id := id, groupId := input.groupId, creatorId := input.creatorId,
      title := input.title, description := input.description,
      sideA := input.sideA, sideB := input.sideB, stake := input.stake,
      eventDate := input.eventDate, status := "draft",
      proofType := input.proofType, arbiterId := input.arbiterId,
      winnerSide := input.winnerSide, participants := [], createdAt := now }
  ({ s with bets := mapSet s.bets id newBet, nextId := s.nextId + 1 }, newBet)

/-- `acceptBet`: fails (`null`) when the bet is missing, not in `draft`, or
the user already participates; otherwise appends the participant and sets
the status to `locked` when the participant count is exactly 2 and to
`pending` otherwise.  (The source also computes whether the opposite side
is taken, but never uses the result.) -/
def acceptBet (s : BetStore) (betId userId : String) (side : Side)
    (now : Nat) : BetStore × Option Bet :=
  match mapLookup s.bets betId with
  | none => (s, none)
  | some bet =>
      if ¬ bet.status = "draft" then (s, none)
      else if ∃ p ∈ bet.participants, p.userId = userId then (s, none)
      else
        let bet' :=
          { bet with participants :=
              bet.participants ++
                [({ userId := userId, side := side,
                    acceptedAt := now } : BetParticipant)] }
        let bet'' :=
          { bet' with status :=
              if bet'.participants.length = 2 then "locked" else "pending" }
        ({ s with bets := mapSet s.bets betId bet'' }, some bet'')

/-- `lockBet`: a draft bet with at least 2 participants becomes `locked`. -/
def lockBet (s : BetStore) (betId : String) : BetStore :=
  match mapLookup s.bets betId with
  | none => s
  | some bet =>
      if bet.status = "draft" ∧ 2 ≤ bet.participants.length then
        { s with bets := mapSet s.bets betId { bet with status := "locked" } }
      else s

/-- `submitProof`: a bet in `awaiting_proof` moves to `voting`; the proof
text itself is dropped by the source. -/
def submitProof (s : BetStore) (betId userId proofText : String) : BetStore :=
  match mapLookup s.bets betId with
  | none => s
  | some bet =>
      if bet.status = "awaiting_proof" then
        { s with bets := mapSet s.bets betId { bet with status := "voting" } }
      else s

/-- `addLedgerEntry`: append an entry with a fresh id to the ledger. -/
def addLedgerEntry (s : BetStore) (userId betId : String) (amount : ℚ)
    (now : Nat) : BetStore × LedgerEntry :=
  let e : LedgerEntry := { id := genId s.nextId, userId := userId,
                           betId := betId, amount := amount,
                           createdAt := now }
  ({ s with ledger := s.ledger ++ [e], nextId := s.nextId + 1 }, e)

/-- `resolveBet`: a no-op when the bet is missing or already `resolved`;
otherwise set the status to `resolved`, partition the participants by the
winning side and, when both partitions are non-empty, append one ledger
entry per winner (`stake * losers.length / winners.length`) and one per
loser (`-stake`). -/
def resolveBet (s : BetStore) (betId : String) (winningSide : Side)
    (now : Nat) : BetStore :=
  match mapLookup s.bets betId with
  | none => s
  | some bet =>
      if bet.status = "resolved" then s
      else
        let s1 :=
          { s with bets :=
              mapSet s.bets betId { bet with status := "resolved" } }
        let winners := bet.participants.filter (fun p => p.side = winningSide)
        let losers := bet.participants.filter (fun p => ¬ p.side = winningSide)
        if 0 < winners.length ∧ 0 < losers.length then
          let winningsPerPerson :=
            bet.stake * (losers.length : ℚ) / (winners.length : ℚ)
          let s2 := winners.foldl
            (fun st p =>
              (addLedgerEntry st p.userId bet.id winningsPerPerson now).1) s1
          losers.foldl
            (fun st p =>
              (addLedgerEntry st p.userId bet.id (-bet.stake) now).1) s2
        else s1

/-- `voteOnBet`: on a bet in `voting`, immediately resolve with the voter's
chosen side; otherwise do nothing. -/
def voteOnBet (s : BetStore) (betId userId : String) (winningSide : Side)
    (now : Nat) : BetStore :=
  match mapLookup s.bets betId with
  | none => s
  | some bet =>
      if bet.status = "voting" then resolveBet s betId winningSide now else s

/-- `checkAndProgressBet`: two consecutive `if`s — a past-due draft bet with
at least 2 participants becomes `locked`, and then a `locked` past-due bet
(including one just locked by the first `if`) becomes `awaiting_proof`. -/
def checkAndProgressBet (s : BetStore) (betId : String) (now : Nat) :
    BetStore :=
  match mapLookup s.bets betId with
  | none => s
  | some bet =>
      let p1 := bet.status = "draft" ∧ 2 ≤ bet.participants.length ∧
                bet.eventDate ≤ now
      let bet1 := if p1 then { bet with status := "locked" } else bet
      let s1 := if p1 then { s with bets := mapSet s.bets betId bet1 } else s
      let p2 := bet1.status = "locked" ∧ bet1.eventDate ≤ now
      if p2 then
        { s1 with bets :=
            mapSet s1.bets betId { bet1 with status := "awaiting_proof" } }
      else s1

/-- `updateBetStatus`: write an arbitrary string into the status field
(`status as any` in the source). -/
def updateBetStatus (s : BetStore) (betId statusText : String) : BetStore :=
  match mapLookup s.bets betId with
  | none => s
  | some bet =>
      { s with bets := mapSet s.bets betId { bet with status := statusText } }

/-- The status of the bet stored under key `b`, if any. -/
def betStatusOf (s : BetStore) (b : String) : Option String :=
  (mapLookup s.bets b).map Bet.status

/-- The ledger entries recorded for bet `b`, in order. -/
def ledgerFor (s : BetStore) (b : String) : List LedgerEntry :=
  s.ledger.filter (fun e => e.betId = b)

/-- One call to a mutating method of the public interface boundary (§6 of
the spec); read-only getters are omitted since they cannot change state. -/
inductive Op : Type
  | addUser (email displayName : String) (avatarUrl : Option String)
  | createGroup (name creatorId : String) (now : Nat)
  | joinGroup (inviteCode userId : String)
  | createBet (input : BetInput) (now : Nat)
  | acceptBet (betId userId : String) (side : Side) (now : Nat)
  | lockBet (betId : String)
  | submitProof (betId userId proofText : String)
  | voteOnBet (betId userId : String) (winningSide : Side) (now : Nat)
  | resolveBet (betId : String) (winningSide : Side) (now : Nat)
  | checkAndProgressBet (betId : String) (now : Nat)
  | updateBetStatus (betId statusText : String)
  | addLedgerEntry (userId betId : String) (amount : ℚ) (now : Nat)
deriving DecidableEq

/-- The store after one public operation. -/
def applyOp (s : BetStore) : Op → BetStore
  | Op.addUser email displayName avatarUrl =>
      (addUser s email displayName avatarUrl).1
  | Op.createGroup name creatorId now => (createGroup s name creatorId now).1
  | Op.joinGroup inviteCode userId => (joinGroup s inviteCode userId).1
  | Op.createBet input now => (createBet s input now).1
  | Op.acceptBet betId userId side now => (acceptBet s betId userId side now).1
  | Op.lockBet betId => lockBet s betId
  | Op.submitProof betId userId proofText =>
      submitProof s betId userId proofText
  | Op.voteOnBet betId userId winningSide now =>
      voteOnBet s betId userId winningSide now
  | Op.resolveBet betId winningSide now => resolveBet s betId winningSide now
  | Op.checkAndProgressBet betId now => checkAndProgressBet s betId now
  | Op.updateBetStatus betId statusText => updateBetStatus s betId statusText
  | Op.addLedgerEntry userId betId amount now =>
      (addLedgerEntry s userId betId amount now).1

/-- The store after a sequence of public operations. -/
def runOps (s : BetStore) (ops : List Op) : BetStore :=
  ops.foldl applyOp s

/-- Marks the operations of the lifecycle core: everything except the raw
status override `updateBetStatus` and the raw `addLedgerEntry`. -/
def isCoreOp : Op → Bool
  | Op.updateBetStatus _ _ => false
  | Op.addLedgerEntry _ _ _ _ => false
  | _ => true

/-- Marks operations whose `createBet` payload carries no `winnerSide`
(true for every non-`createBet` operation). -/
def noWinnerInput : Op → Bool
  | Op.createBet input _ => input.winnerSide.isNone
  | _ => true

/-! ## Well-formedness of reachable stores

`WFb bets nextId` states that every stored bet sits under its own `id` as
key, and that every key was produced by `genId` from an exhausted counter
value.  This is the invariant the source gets from generating fresh random
ids, and it is preserved by every public operation. -/

def WFb (bets : List (String × Bet)) (nextId : Nat) : Prop :=
  ∀ k bet, mapLookup bets k = some bet →
    bet.id = k ∧ ∃ n, n < nextId ∧ k = genId n

/-- A store is well formed when its bets map is. -/
def WF (s : BetStore) : Prop :=
  WFb s.bets s.nextId

/-- Every bet on the map has an undefined (`none`) `winnerSide`. -/
def NoWinnerB (bets : List (String × Bet)) : Prop :=
  ∀ k bet, mapLookup bets k = some bet → bet.winnerSide = none

def mkBatch : List BetParticipant → String → ℚ → Nat → Nat → List LedgerEntry
  | [], _, _, _, _ => []
  | p :: ps, bid, amt, start, now =>
      { id := genId start, userId := p.userId, betId := bid, amount := amt,
        createdAt := now } :: mkBatch ps bid amt (start + 1) now

/-! ## Concrete sample data used in witnesses and counterexamples -/

/-- A bet record with the given status and participants and otherwise
fixed concrete fields (stake 10, event date 5). -/
def sampleBet (statusText : String) (ps : List BetParticipant) : Bet :=
  { id := "b", groupId := "g", creatorId := "u0", title := "t",
    description := "d", sideA := "yes", sideB := "no", stake := 10,
    eventDate := 5, status := statusText, proofType := ProofType.vote,
    arbiterId := none, winnerSide := none, participants := ps,
    createdAt := 0 }

/-- A store holding exactly the sample bet under key `"b"`. -/
def sampleStore (statusText : String) (ps : List BetParticipant) : BetStore :=
  { users := [], groups := [], bets := [("b", sampleBet statusText ps)],
    ledger := [], groupMembers := [], nextId := 0 }

/-- A participant backing side A. -/
def pA : BetParticipant := { userId := "u1", side := Side.A, acceptedAt := 0 }

/-- A participant backing side B. -/
def pB : BetParticipant := { userId := "u2", side := Side.B, acceptedAt := 0 }

/-- A group whose only member is `"alice"`. -/
def groupG : Group :=
  { id := "g", name := "G", creatorId := "alice", inviteCode := "X",
    memberIds := ["alice"], createdAt := 0 }

/-- A store holding `groupG` and, in that group, the sample bet in `draft`
with no participants. -/
def storeWithGroup : BetStore :=
  { users := [], groups := [("g", groupG)],
    bets := [("b", sampleBet "draft" [])], ledger := [],
    groupMembers := [("g", ["alice"])], nextId := 0 }

/-- A `createBet` payload that carries no `winnerSide`. -/
def plainInput : BetInput :=
  { groupId := "g", creatorId := "u0", title := "t", description := "d",
    sideA := "yes", sideB := "no", stake := 10, eventDate := 5,
    proofType := ProofType.vote, arbiterId := none, winnerSide := none }

/-- A `createBet` payload that smuggles in `winnerSide = A`. -/
def winnerInput : BetInput :=
  { plainInput with winnerSide := some Side.A }

/-- An operation sequence that creates a bet (key `genId 0`), gets two
participants onto it (re-opening the draft with `updateBetStatus`, since a
plain second accept is rejected), moves it to `voting` and resolves it by
a first vote. -/
def settleOps : List Op :=
  [Op.createBet plainInput 0,
   Op.acceptBet (genId 0) "u1" Side.A 0,
   Op.updateBetStatus (genId 0) "draft",
   Op.acceptBet (genId 0) "u2" Side.B 0,
   Op.updateBetStatus (genId 0) "voting",
   Op.voteOnBet (genId 0) "u1" Side.A 0]

/-- A continuation that knocks the resolved bet back to `locked` with
`updateBetStatus` and resolves it a second time. -/
def resettleOps : List Op :=
  [Op.updateBetStatus (genId 0) "locked",
   Op.resolveBet (genId 0) Side.A 0]

/-- A well-formed store holding a two-sided bet in `voting` under the
generated key `genId 0`. -/
def votingStore : BetStore :=
  { users := [], groups := [],
    bets := [(genId 0, { sampleBet "voting" [pA, pB] with id := genId 0 })],
    ledger := [], groupMembers := [], nextId := 1 }
/-! ## Association-list lemmas -/

theorem mapLookup_mapSet {β : Type} (m : List (String × β)) (k b : String)
    (v : β) :
    mapLookup (mapSet m k v) b = if b = k then some v else mapLookup m b := by
  induction m with
  | nil =>
      by_cases hbk : b = k
      · subst hbk
        simp [mapSet, mapLookup]
      · have hkb : ¬ k = b := fun h => hbk h.symm
        simp [mapSet, mapLookup, hbk, hkb]
  | cons p rest ih =>
      obtain ⟨k', v'⟩ := p
      by_cases hk : k' = k
      · subst hk
        by_cases hb : k' = b
        · subst hb
          simp [mapSet, mapLookup]
        · have hbk : ¬ b = k' := fun h => hb h.symm
          simp [mapSet, mapLookup, hb, hbk]
      · by_cases hb : k' = b
        · subst hb
          simp [mapSet, mapLookup, hk]
        · simp [mapSet, mapLookup, hk, hb, ih]

theorem genId_injective {m n : Nat} (h : genId m = genId n) : m = n := by
  have hdata := congrArg String.data h
  simp only [genId] at hdata
  have hlen := congrArg List.length hdata
  have hsucc : m + 1 = n + 1 := by simpa using hlen
  omega

theorem wfb_mono {bets : List (String × Bet)} {n m : Nat} (h : WFb bets n)
    (hnm : n ≤ m) : WFb bets m := by
  intro k bet hk
  obtain ⟨hid, j, hj, hkey⟩ := h k bet hk
  exact ⟨hid, j, lt_of_lt_of_le hj hnm, hkey⟩

theorem wfb_update {bets : List (String × Bet)} {n : Nat} (h : WFb bets n)
    {k : String} {bet bet' : Bet} (hk : mapLookup bets k = some bet)
    (hid : bet'.id = bet.id) : WFb (mapSet bets k bet') n := by
  intro b cur hb
  rw [mapLookup_mapSet] at hb
  by_cases hbk : b = k
  · rw [if_pos hbk] at hb
    obtain ⟨hold, j, hj, hkey⟩ := h k bet hk
    have hcur : cur = bet' := by
      injection hb with h2
      exact h2.symm
    subst hbk
    refine ⟨?_, j, hj, hkey⟩
    rw [hcur, hid, hold]
  · rw [if_neg hbk] at hb
    exact h b cur hb

theorem wfb_insert {bets : List (String × Bet)} {n : Nat} (h : WFb bets n)
    {bet : Bet} (hid : bet.id = genId n) {m : Nat} (hm : n < m) :
    WFb (mapSet bets (genId n) bet) m := by
  intro b cur hb
  rw [mapLookup_mapSet] at hb
  by_cases hbk : b = genId n
  · rw [if_pos hbk] at hb
    have hcur : cur = bet := by
      injection hb with h2
      exact h2.symm
    subst hbk
    refine ⟨?_, n, hm, rfl⟩
    rw [hcur, hid]
  · rw [if_neg hbk] at hb
    obtain ⟨hold, j, hj, hkey⟩ := h b cur hb
    exact ⟨hold, j, lt_of_lt_of_le hj (Nat.le_of_lt hm), hkey⟩

/-! ## Lemmas about the settlement batch -/
theorem mkBatch_length (ps : List BetParticipant) (bid : String) (amt : ℚ)
    (start now : Nat) :
    (mkBatch ps bid amt start now).length = ps.length := by
  induction ps generalizing start with
  | nil => rfl
  | cons p ps ih => simp [mkBatch, ih]

theorem mkBatch_filter_ne (ps : List BetParticipant) {bid b : String}
    (hne : ¬ bid = b) (amt : ℚ) (start now : Nat) :
    (mkBatch ps bid amt start now).filter (fun e => e.betId = b) = [] := by
  induction ps generalizing start with
  | nil => rfl
  | cons p ps ih => simp [mkBatch, List.filter_cons, hne, ih]

theorem mkBatch_filter_self (ps : List BetParticipant) (bid : String)
    (amt : ℚ) (start now : Nat) :
    (mkBatch ps bid amt start now).filter (fun e => e.betId = bid) =
      mkBatch ps bid amt start now := by
  induction ps generalizing start with
  | nil => rfl
  | cons p ps ih => simp [mkBatch, List.filter_cons, ih]

theorem mkBatch_sum (ps : List BetParticipant) (bid : String) (amt : ℚ)
    (start now : Nat) :
    ((mkBatch ps bid amt start now).map LedgerEntry.amount).sum =
      (ps.length : ℚ) * amt := by
  induction ps generalizing start with
  | nil => simp [mkBatch]
  | cons p ps ih =>
      simp [mkBatch, ih]
      ring

/-- Folding `addLedgerEntry` over a participant list appends exactly the
corresponding batch and advances the id counter. -/
theorem foldl_addLedgerEntry (ps : List BetParticipant) (s : BetStore)
    (bid : String) (amt : ℚ) (now : Nat) :
    ps.foldl (fun st p => (addLedgerEntry st p.userId bid amt now).1) s =
      { s with ledger := s.ledger ++ mkBatch ps bid amt s.nextId now,
               nextId := s.nextId + ps.length } := by
  induction ps generalizing s with
  | nil => simp [mkBatch]
  | cons p ps ih =>
      obtain ⟨us, gs, bs, ld, gm, ni⟩ := s
      rw [List.foldl_cons, ih]
      simp [addLedgerEntry, mkBatch]
      omega

/-! ## Shape lemmas for `resolveBet` -/

theorem resolveBet_missing {s : BetStore} {bid : String} (w : Side)
    (now : Nat) (h : mapLookup s.bets bid = none) :
    resolveBet s bid w now = s := by
  simp [resolveBet, h]

theorem resolveBet_already {s : BetStore} {bid : String} (w : Side)
    (now : Nat) {bet : Bet} (h : mapLookup s.bets bid = some bet)
    (hr : bet.status = "resolved") : resolveBet s bid w now = s := by
  simp [resolveBet, h, hr]

theorem resolveBet_active {s : BetStore} {bid : String} (w : Side)
    (now : Nat) {bet : Bet} (h : mapLookup s.bets bid = some bet)
    (hr : ¬ bet.status = "resolved") :
    resolveBet s bid w now =
      (let winners := bet.participants.filter (fun p => p.side = w)
       let losers := bet.participants.filter (fun p => ¬ p.side = w)
       if 0 < winners.length ∧ 0 < losers.length then
         { s with
             bets := mapSet s.bets bid { bet with status := "resolved" },
             ledger := s.ledger
               ++ mkBatch winners bet.id
                    (bet.stake * (losers.length : ℚ) / (winners.length : ℚ))
                    s.nextId now
               ++ mkBatch losers bet.id (-bet.stake)
                    (s.nextId + winners.length) now,
             nextId := s.nextId + winners.length + losers.length }
       else
         { s with
             bets := mapSet s.bets bid { bet with status := "resolved" } }) := by
  obtain ⟨us, gs, bs, ld, gm, ni⟩ := s
  simp only [resolveBet, h, hr, if_neg, ite_false]
  split
  · rw [foldl_addLedgerEntry, foldl_addLedgerEntry]
  · rfl

theorem resolveBet_ledger_active {s : BetStore} {bid : String} (w : Side)
    (now : Nat) {bet : Bet} (h : mapLookup s.bets bid = some bet)
    (hr : ¬ bet.status = "resolved") :
    (resolveBet s bid w now).ledger =
      (let winners := bet.participants.filter (fun p => p.side = w)
       let losers := bet.participants.filter (fun p => ¬ p.side = w)
       if 0 < winners.length ∧ 0 < losers.length then
         s.ledger
           ++ mkBatch winners bet.id
                (bet.stake * (losers.length : ℚ) / (winners.length : ℚ))
                s.nextId now
           ++ mkBatch losers bet.id (-bet.stake)
                (s.nextId + winners.length) now
       else s.ledger) := by
  rw [resolveBet_active w now h hr]
  dsimp only
  split
  · rfl
  · rfl

theorem resolveBet_bets_active {s : BetStore} {bid : String} (w : Side)
    (now : Nat) {bet : Bet} (h : mapLookup s.bets bid = some bet)
    (hr : ¬ bet.status = "resolved") :
    (resolveBet s bid w now).bets =
      mapSet s.bets bid { bet with status := "resolved" } := by
  rw [resolveBet_active w now h hr]
  dsimp only
  split
  · rfl
  · rfl

/-! ## Claim C5: resolving an already-resolved bet is a no-op -/

/-- C5: calling `resolveBet` on a bet whose status is already `resolved` is
a no-op that appends no ledger entries and leaves the entire store (bets,
ledger, groups, users) unchanged, regardless of the winning side passed. -/
theorem resolveBet_resolved_noop (s : BetStore) (betId : String)
    (winningSide : Side) (now : Nat) (bet : Bet)
    (h : mapLookup s.bets betId = some bet)
    (hr : bet.status = "resolved") :
    resolveBet s betId winningSide now = s :=
  resolveBet_already winningSide now h hr

/-- Witness for C5 at a concrete resolved bet. -/
theorem resolveBet_resolved_noop_witness :
    mapLookup (sampleStore "resolved" [pA, pB]).bets "b" =
      some (sampleBet "resolved" [pA, pB]) ∧
    (sampleBet "resolved" [pA, pB]).status = "resolved" ∧
    resolveBet (sampleStore "resolved" [pA, pB]) "b" Side.B 3 =
      sampleStore "resolved" [pA, pB] :=
  ⟨rfl, rfl,
   resolveBet_resolved_noop (sampleStore "resolved" [pA, pB]) "b" Side.B 3
     (sampleBet "resolved" [pA, pB]) rfl rfl⟩

/-! ## Claim C2: the settlement batch of `resolveBet` -/

/-- C2: `resolveBet` with winning side `W` partitions the participants into
winners (`side == W`) and losers (`side != W`); when both partitions are
non-empty it appends exactly one ledger entry per participant — each winner
credited `stake * losers.count / winners.count` and each loser debited
`stake` — and when either partition is empty it appends no entries at all
(`mkBatch` produces one entry per listed participant with the stated
amount).  Stated for a bet the call actually resolves, i.e. one not already
`resolved` (the already-resolved no-op is claim C5). -/
theorem resolveBet_settlement (s : BetStore) (betId : String)
    (winningSide : Side) (now : Nat) (bet : Bet)
    (h : mapLookup s.bets betId = some bet)
    (hr : ¬ bet.status = "resolved") :
    (0 < (bet.participants.filter (fun p => p.side = winningSide)).length ∧
     0 < (bet.participants.filter (fun p => ¬ p.side = winningSide)).length →
       (resolveBet s betId winningSide now).ledger =
         s.ledger
           ++ mkBatch (bet.participants.filter (fun p => p.side = winningSide))
                bet.id
                (bet.stake *
                  ((bet.participants.filter
                      (fun p => ¬ p.side = winningSide)).length : ℚ) /
                  ((bet.participants.filter
                      (fun p => p.side = winningSide)).length : ℚ))
                s.nextId now
           ++ mkBatch (bet.participants.filter (fun p => ¬ p.side = winningSide))
                bet.id (-bet.stake)
                (s.nextId +
                  (bet.participants.filter
                    (fun p => p.side = winningSide)).length) now) ∧
    ((bet.participants.filter (fun p => p.side = winningSide)).length = 0 ∨
     (bet.participants.filter (fun p => ¬ p.side = winningSide)).length = 0 →
       (resolveBet s betId winningSide now).ledger = s.ledger) := by
  rw [resolveBet_ledger_active winningSide now h hr]
  constructor
  · intro hpos
    simp only [if_pos hpos]
  · intro hzero
    have hneg : ¬ (0 <
        (bet.participants.filter (fun p => p.side = winningSide)).length ∧
        0 < (bet.participants.filter
              (fun p => ¬ p.side = winningSide)).length) := by
      rcases hzero with h0 | h0 <;> omega
    simp only [if_neg hneg]

/-- Witness for C2: a one-winner, one-loser bet at stake 10 yields the two
settlement entries, and a bet with an empty losing side yields none. -/
theorem resolveBet_settlement_witness :
    mapLookup (sampleStore "voting" [pA, pB]).bets "b" =
      some (sampleBet "voting" [pA, pB]) ∧
    (¬ (sampleBet "voting" [pA, pB]).status = "resolved") ∧
    (resolveBet (sampleStore "voting" [pA, pB]) "b" Side.A 7).ledger =
      mkBatch [pA] "b" 10 0 7 ++ mkBatch [pB] "b" (-10) 1 7 := by
  refine ⟨rfl, by decide, ?_⟩
  have hmain :=
    (resolveBet_settlement (sampleStore "voting" [pA, pB]) "b" Side.A 7
      (sampleBet "voting" [pA, pB]) rfl (by decide)).1 (by decide)
  rw [hmain]
  simp [sampleStore, sampleBet, pA, pB, mkBatch]

/-! ## Claim C4: the settlement batch sums to zero -/

/-- C4: when there is at least one winner and at least one loser, the ledger
entries created by `resolveBet` sum to zero in exact rational arithmetic
— equivalently, resolution leaves the total of all ledger amounts
unchanged: winners.count * (stake * losers.count / winners.count) equals
losers.count * stake. -/
theorem resolveBet_zero_sum (s : BetStore) (betId : String)
    (winningSide : Side) (now : Nat) (bet : Bet)
    (h : mapLookup s.bets betId = some bet)
    (hr : ¬ bet.status = "resolved")
    (hw : 0 < (bet.participants.filter (fun p => p.side = winningSide)).length)
    (hl : 0 <
      (bet.participants.filter (fun p => ¬ p.side = winningSide)).length) :
    ((resolveBet s betId winningSide now).ledger.map LedgerEntry.amount).sum =
      (s.ledger.map LedgerEntry.amount).sum := by
  rw [resolveBet_ledger_active winningSide now h hr]
  simp only [if_pos (And.intro hw hl)]
  rw [List.map_append, List.map_append, List.sum_append, List.sum_append,
    mkBatch_sum, mkBatch_sum]
  have hWne : (((bet.participants.filter
      (fun p => p.side = winningSide)).length : ℚ)) ≠ 0 := by
    exact_mod_cast Nat.pos_iff_ne_zero.mp hw
  field_simp
  ring

/-- Witness for C4 at one winner and one loser with stake 10. -/
theorem resolveBet_zero_sum_witness :
    mapLookup (sampleStore "voting" [pA, pB]).bets "b" =
      some (sampleBet "voting" [pA, pB]) ∧
    (¬ (sampleBet "voting" [pA, pB]).status = "resolved") ∧
    0 < ((sampleBet "voting" [pA, pB]).participants.filter
          (fun p => p.side = Side.A)).length ∧
    0 < ((sampleBet "voting" [pA, pB]).participants.filter
          (fun p => ¬ p.side = Side.A)).length ∧
    ((resolveBet (sampleStore "voting" [pA, pB]) "b" Side.A 7).ledger.map
        LedgerEntry.amount).sum =
      ((sampleStore "voting" [pA, pB]).ledger.map LedgerEntry.amount).sum :=
  ⟨rfl, by decide, by decide, by decide,
   resolveBet_zero_sum (sampleStore "voting" [pA, pB]) "b" Side.A 7
     (sampleBet "voting" [pA, pB]) rfl (by decide) (by decide) (by decide)⟩

/-! ## Claim C7: the first vote resolves the bet -/

theorem resolveBet_status_self {s : BetStore} {bid : String} (w : Side)
    (now : Nat) {bet : Bet} (h : mapLookup s.bets bid = some bet)
    (hr : ¬ bet.status = "resolved") :
    betStatusOf (resolveBet s bid w now) bid = some "resolved" := by
  unfold betStatusOf
  rw [resolveBet_bets_active w now h hr, mapLookup_mapSet]
  simp

/-- C7: on a bet in status `voting`, a single `voteOnBet` call by any user
immediately resolves the bet with the voter's chosen side — the call
behaves exactly as `resolveBet` with that side (producing the settlement
entries) and the status becomes `resolved`; on a bet in any other status,
`voteOnBet` changes nothing. -/
theorem voteOnBet_first_vote_resolves (s : BetStore) (betId userId : String)
    (winningSide : Side) (now : Nat) (bet : Bet)
    (h : mapLookup s.bets betId = some bet) :
    (bet.status = "voting" →
       voteOnBet s betId userId winningSide now =
         resolveBet s betId winningSide now ∧
       betStatusOf (voteOnBet s betId userId winningSide now) betId =
         some "resolved") ∧
    (¬ bet.status = "voting" →
       voteOnBet s betId userId winningSide now = s) := by
  constructor
  · intro hv
    have heq : voteOnBet s betId userId winningSide now =
        resolveBet s betId winningSide now := by
      simp [voteOnBet, h, hv]
    refine ⟨heq, ?_⟩
    rw [heq]
    refine resolveBet_status_self winningSide now h ?_
    rw [hv]
    decide
  · intro hv
    simp [voteOnBet, h, hv]

/-- Witness for C7 at a concrete voting bet. -/
theorem voteOnBet_first_vote_resolves_witness :
    mapLookup (sampleStore "voting" [pA, pB]).bets "b" =
      some (sampleBet "voting" [pA, pB]) ∧
    (((sampleBet "voting" [pA, pB]).status = "voting" →
       voteOnBet (sampleStore "voting" [pA, pB]) "b" "u9" Side.B 3 =
         resolveBet (sampleStore "voting" [pA, pB]) "b" Side.B 3 ∧
       betStatusOf (voteOnBet (sampleStore "voting" [pA, pB]) "b" "u9"
         Side.B 3) "b" = some "resolved") ∧
     (¬ (sampleBet "voting" [pA, pB]).status = "voting" →
       voteOnBet (sampleStore "voting" [pA, pB]) "b" "u9" Side.B 3 =
         sampleStore "voting" [pA, pB])) :=
  ⟨rfl, voteOnBet_first_vote_resolves (sampleStore "voting" [pA, pB]) "b"
    "u9" Side.B 3 (sampleBet "voting" [pA, pB]) rfl⟩

/-! ## Claim C8: failure cases of `acceptBet` -/

/-- C8: `acceptBet` returns `null` and leaves the store (hence the bet's
participant list) entirely unchanged whenever the bet does not exist, its
status is not `draft`, or the calling user already appears among its
participants. -/
theorem acceptBet_failure_noop (s : BetStore) (betId userId : String)
    (side : Side) (now : Nat)
    (h : mapLookup s.bets betId = none ∨
         ∃ bet, mapLookup s.bets betId = some bet ∧
           (¬ bet.status = "draft" ∨
            ∃ p ∈ bet.participants, p.userId = userId)) :
    acceptBet s betId userId side now = (s, none) := by
  rcases h with h | ⟨bet, hb, hcond⟩
  · simp [acceptBet, h]
  · rcases hcond with hs | hp
    · simp [acceptBet, hb, hs]
    · by_cases hs : bet.status = "draft"
      · simp [acceptBet, hb, hs, hp]
      · simp [acceptBet, hb, hs]

/-- Witness for C8: accepting a non-draft (locked) bet fails. -/
theorem acceptBet_failure_noop_witness :
    (mapLookup (sampleStore "locked" [pA]).bets "b" = none ∨
     ∃ bet, mapLookup (sampleStore "locked" [pA]).bets "b" = some bet ∧
       (¬ bet.status = "draft" ∨
        ∃ p ∈ bet.participants, p.userId = "u9")) ∧
    acceptBet (sampleStore "locked" [pA]) "b" "u9" Side.B 0 =
      (sampleStore "locked" [pA], none) :=
  ⟨Or.inr ⟨sampleBet "locked" [pA], rfl, Or.inl (by decide)⟩,
   acceptBet_failure_noop (sampleStore "locked" [pA]) "b" "u9" Side.B 0
     (Or.inr ⟨sampleBet "locked" [pA], rfl, Or.inl (by decide)⟩)⟩

/-! ## Claim C1: the second accept is rejected (code bug) -/

/-- C1: evaluation at the claimed scenario.  On a draft bet with no
participants, the first accept succeeds and moves the bet to `pending`
(first conjunct, as the claim states); but the second accept by a
different user on the opposite side returns `null` and leaves the store
unchanged (second conjunct), because `acceptBet` requires status `draft`
while the bet is now `pending`.  The claimed `pending → locked` transition
at 2 participants is unreachable by accepts alone, contradicting both the
spec scenario and the source's own mock data, which accepts twice in a row
and labels the result a locked bet. -/
theorem acceptBet_second_rejected :
    ((acceptBet (sampleStore "draft" []) "b" "u1" Side.A 0).2.map
        Bet.status = some "pending") ∧
    (acceptBet (acceptBet (sampleStore "draft" []) "b" "u1" Side.A 0).1 "b"
        "u2" Side.B 0 =
      ((acceptBet (sampleStore "draft" []) "b" "u1" Side.A 0).1, none)) := by
  constructor
  · rfl
  · rfl

/-! ## Claim C6: what the time-based check actually does -/

/-- C6 counterexample: a past-due draft bet with 2 participants is moved by
`checkAndProgressBet` all the way to `awaiting_proof` — not to `locked` as
claimed — because the second `if` immediately fires on the just-locked
bet; and a past-due `pending` bet with 2 participants is not moved at all,
although the claim covers bets in draft *or pending*. -/
theorem checkAndProgressBet_counterexample :
    (betStatusOf (checkAndProgressBet (sampleStore "draft" [pA, pB]) "b" 6)
       "b" = some "awaiting_proof") ∧
    (¬ betStatusOf (checkAndProgressBet (sampleStore "draft" [pA, pB]) "b" 6)
       "b" = some "locked") ∧
    (checkAndProgressBet (sampleStore "pending" [pA, pB]) "b" 6 =
       sampleStore "pending" [pA, pB]) := by
  refine ⟨rfl, by decide, rfl⟩

/-- C6 amended: for a bet whose event date has passed,
`checkAndProgressBet` moves a draft bet with at least 2 participants to
`awaiting_proof` (through `locked` within the same call), leaves a
`pending` bet unchanged, and moves a `locked` bet to `awaiting_proof`. -/
theorem checkAndProgressBet_progress (s : BetStore) (betId : String)
    (now : Nat) (bet : Bet) (h : mapLookup s.bets betId = some bet)
    (hdate : bet.eventDate ≤ now) :
    (bet.status = "draft" ∧ 2 ≤ bet.participants.length →
       betStatusOf (checkAndProgressBet s betId now) betId =
         some "awaiting_proof") ∧
    (bet.status = "pending" → checkAndProgressBet s betId now = s) ∧
    (bet.status = "locked" →
       betStatusOf (checkAndProgressBet s betId now) betId =
         some "awaiting_proof") := by
  refine ⟨?_, ?_, ?_⟩
  · rintro ⟨hs, hp⟩
    simp [checkAndProgressBet, h, hs, hp, hdate, betStatusOf,
      mapLookup_mapSet]
  · intro hs
    simp [checkAndProgressBet, h, hs]
  · intro hs
    simp [checkAndProgressBet, h, hs, hdate, betStatusOf, mapLookup_mapSet]

/-- Witness for C6 (amended) at a past-due draft bet with 2 participants
and at a past-due locked bet. -/
theorem checkAndProgressBet_progress_witness :
    mapLookup (sampleStore "draft" [pA, pB]).bets "b" =
      some (sampleBet "draft" [pA, pB]) ∧
    (sampleBet "draft" [pA, pB]).eventDate ≤ 6 ∧
    (((sampleBet "draft" [pA, pB]).status = "draft" ∧
        2 ≤ (sampleBet "draft" [pA, pB]).participants.length →
       betStatusOf (checkAndProgressBet (sampleStore "draft" [pA, pB]) "b" 6)
         "b" = some "awaiting_proof") ∧
     ((sampleBet "draft" [pA, pB]).status = "pending" →
       checkAndProgressBet (sampleStore "draft" [pA, pB]) "b" 6 =
         sampleStore "draft" [pA, pB]) ∧
     ((sampleBet "draft" [pA, pB]).status = "locked" →
       betStatusOf (checkAndProgressBet (sampleStore "draft" [pA, pB]) "b" 6)
         "b" = some "awaiting_proof")) :=
  ⟨rfl, by decide,
   checkAndProgressBet_progress (sampleStore "draft" [pA, pB]) "b" 6
     (sampleBet "draft" [pA, pB]) rfl (by decide)⟩

/-! ## Shape lemmas for the remaining operations -/

theorem mapSet_mapSet {β : Type} (m : List (String × β)) (k : String)
    (v v' : β) : mapSet (mapSet m k v) k v' = mapSet m k v' := by
  induction m with
  | nil => simp [mapSet]
  | cons p rest ih =>
      obtain ⟨k', w⟩ := p
      by_cases hk : k' = k
      · simp [mapSet, hk]
      · simp [mapSet, hk, ih]

theorem joinGroup_shape (s : BetStore) (inviteCode userId : String) :
    ∃ gs gm, (joinGroup s inviteCode userId).1 =
      { s with groups := gs, groupMembers := gm } := by
  unfold joinGroup
  cases hf : s.groups.find? (fun p => p.2.inviteCode = inviteCode) with
  | none => exact ⟨s.groups, s.groupMembers, rfl⟩
  | some p =>
      obtain ⟨gid, g⟩ := p
      by_cases hm : userId ∈ g.memberIds
      · exact ⟨s.groups, s.groupMembers, by simp [hm]⟩
      · refine ⟨mapSet s.groups gid
          ({ g with memberIds := g.memberIds ++ [userId] } : Group),
          addMember s.groupMembers gid userId, ?_⟩
        simp [hm]

theorem acceptBet_cases (s : BetStore) (betId userId : String) (side : Side)
    (now : Nat) :
    (acceptBet s betId userId side now).1 = s ∨
    ∃ bet, mapLookup s.bets betId = some bet ∧ bet.status = "draft" ∧
      (acceptBet s betId userId side now).1 =
        { s with
            bets :=
              mapSet s.bets betId
                ({ bet with
                    participants := bet.participants ++
                      [({ userId := userId, side := side, acceptedAt := now } :
                         BetParticipant)],
                    status := if (bet.participants ++
                        [({ userId := userId, side := side,
                            acceptedAt := now } : BetParticipant)]).length = 2
                      then "locked" else "pending" } : Bet) } := by
  unfold acceptBet
  cases hm : mapLookup s.bets betId with
  | none => exact Or.inl rfl
  | some bet =>
      by_cases h1 : ¬ bet.status = "draft"
      · simp [h1]
      · by_cases h2 : ∃ p ∈ bet.participants, p.userId = userId
        · simp [h1, h2]
        · right
          refine ⟨bet, rfl, not_not.mp h1, ?_⟩
          simp [h1, h2]

theorem lockBet_cases (s : BetStore) (betId : String) :
    lockBet s betId = s ∨
    ∃ bet, mapLookup s.bets betId = some bet ∧ bet.status = "draft" ∧
      lockBet s betId =
        { s with
            bets :=
              mapSet s.bets betId
                ({ bet with status := "locked" } : Bet) } := by
  unfold lockBet
  cases hm : mapLookup s.bets betId with
  | none => exact Or.inl rfl
  | some bet =>
      by_cases hc : bet.status = "draft" ∧ 2 ≤ bet.participants.length
      · exact Or.inr ⟨bet, rfl, hc.1, by simp [hc]⟩
      · simp [hc]

theorem submitProof_cases (s : BetStore) (betId userId proofText : String) :
    submitProof s betId userId proofText = s ∨
    ∃ bet, mapLookup s.bets betId = some bet ∧
      bet.status = "awaiting_proof" ∧
      submitProof s betId userId proofText =
        { s with
            bets :=
              mapSet s.bets betId
                ({ bet with status := "voting" } : Bet) } := by
  unfold submitProof
  cases hm : mapLookup s.bets betId with
  | none => exact Or.inl rfl
  | some bet =>
      by_cases hc : bet.status = "awaiting_proof"
      · exact Or.inr ⟨bet, rfl, hc, by simp [hc]⟩
      · simp [hc]

theorem updateBetStatus_cases (s : BetStore) (betId statusText : String) :
    updateBetStatus s betId statusText = s ∨
    ∃ bet, mapLookup s.bets betId = some bet ∧
      updateBetStatus s betId statusText =
        { s with
            bets :=
              mapSet s.bets betId
                ({ bet with status := statusText } : Bet) } := by
  unfold updateBetStatus
  cases hm : mapLookup s.bets betId with
  | none => exact Or.inl rfl
  | some bet => exact Or.inr ⟨bet, rfl, rfl⟩

theorem checkAndProgressBet_cases (s : BetStore) (betId : String)
    (now : Nat) :
    checkAndProgressBet s betId now = s ∨
    ∃ bet, mapLookup s.bets betId = some bet ∧
      (bet.status = "draft" ∨ bet.status = "locked") ∧
      ∃ st2, (st2 = "locked" ∨ st2 = "awaiting_proof") ∧
        checkAndProgressBet s betId now =
          { s with
              bets :=
                mapSet s.bets betId
                  ({ bet with status := st2 } : Bet) } := by
  unfold checkAndProgressBet
  cases hm : mapLookup s.bets betId with
  | none => exact Or.inl rfl
  | some bet =>
      by_cases h1 : bet.status = "draft" ∧ 2 ≤ bet.participants.length ∧
          bet.eventDate ≤ now
      · right
        refine ⟨bet, rfl, Or.inl h1.1, "awaiting_proof", Or.inr rfl, ?_⟩
        have h2 : ({ bet with status := "locked" } : Bet).status = "locked" ∧
            ({ bet with status := "locked" } : Bet).eventDate ≤ now :=
          ⟨rfl, h1.2.2⟩
        simp [h1, h2, mapSet_mapSet]
      · by_cases h2 : bet.status = "locked" ∧ bet.eventDate ≤ now
        · right
          refine ⟨bet, rfl, Or.inr h2.1, "awaiting_proof", Or.inr rfl, ?_⟩
          simp [h1, h2]
        · simp [h1, h2]

theorem voteOnBet_cases (s : BetStore) (betId userId : String) (w : Side)
    (now : Nat) :
    voteOnBet s betId userId w now = s ∨
    voteOnBet s betId userId w now = resolveBet s betId w now := by
  unfold voteOnBet
  cases hm : mapLookup s.bets betId with
  | none => exact Or.inl rfl
  | some bet =>
      by_cases hv : bet.status = "voting"
      · exact Or.inr (by simp [hv])
      · exact Or.inl (by simp [hv])

/-! ## Claim C10: no operation's own logic writes `winnerSide` -/

theorem noWinnerB_mapSet {bets : List (String × Bet)} (h : NoWinnerB bets)
    {k : String} {bet' : Bet} (hw : bet'.winnerSide = none) :
    NoWinnerB (mapSet bets k bet') := by
  intro b cur hb
  rw [mapLookup_mapSet] at hb
  by_cases hbk : b = k
  · rw [if_pos hbk] at hb
    injection hb with h2
    rw [← h2]
    exact hw
  · rw [if_neg hbk] at hb
    exact h b cur hb

theorem resolveBet_noWinner (s : BetStore) (bid : String) (w : Side)
    (now : Nat) (h : NoWinnerB s.bets) :
    NoWinnerB (resolveBet s bid w now).bets := by
  cases hm : mapLookup s.bets bid with
  | none =>
      rw [resolveBet_missing w now hm]
      exact h
  | some bet =>
      by_cases hr : bet.status = "resolved"
      · rw [resolveBet_already w now hm hr]
        exact h
      · rw [resolveBet_bets_active w now hm hr]
        exact noWinnerB_mapSet h (h bid bet hm)

theorem applyOp_noWinner (s : BetStore) (op : Op)
    (hop : noWinnerInput op = true) (h : NoWinnerB s.bets) :
    NoWinnerB (applyOp s op).bets := by
  cases op with
  | addUser email displayName avatarUrl => exact h
  | createGroup name creatorId now => exact h
  | joinGroup inviteCode userId =>
      obtain ⟨gs, gm, heq⟩ := joinGroup_shape s inviteCode userId
      show NoWinnerB (joinGroup s inviteCode userId).1.bets
      rw [heq]
      exact h
  | createBet input now =>
      refine noWinnerB_mapSet h ?_
      simpa [noWinnerInput, Option.isNone_iff_eq_none] using hop
  | acceptBet betId userId side now =>
      rcases acceptBet_cases s betId userId side now with heq | ⟨bet, hm, _, heq⟩
      · show NoWinnerB (acceptBet s betId userId side now).1.bets
        rw [heq]
        exact h
      · show NoWinnerB (acceptBet s betId userId side now).1.bets
        rw [heq]
        exact noWinnerB_mapSet h (h betId bet hm)
  | lockBet betId =>
      rcases lockBet_cases s betId with heq | ⟨bet, hm, _, heq⟩
      · show NoWinnerB (lockBet s betId).bets
        rw [heq]
        exact h
      · show NoWinnerB (lockBet s betId).bets
        rw [heq]
        exact noWinnerB_mapSet h (h betId bet hm)
  | submitProof betId userId proofText =>
      rcases submitProof_cases s betId userId proofText with
        heq | ⟨bet, hm, _, heq⟩
      · show NoWinnerB (submitProof s betId userId proofText).bets
        rw [heq]
        exact h
      · show NoWinnerB (submitProof s betId userId proofText).bets
        rw [heq]
        exact noWinnerB_mapSet h (h betId bet hm)
  | voteOnBet betId userId w now =>
      rcases voteOnBet_cases s betId userId w now with heq | heq
      · show NoWinnerB (voteOnBet s betId userId w now).bets
        rw [heq]
        exact h
      · show NoWinnerB (voteOnBet s betId userId w now).bets
        rw [heq]
        exact resolveBet_noWinner s betId w now h
  | resolveBet betId w now => exact resolveBet_noWinner s betId w now h
  | checkAndProgressBet betId now =>
      rcases checkAndProgressBet_cases s betId now with
        heq | ⟨bet, hm, _, st2, _, heq⟩
      · show NoWinnerB (checkAndProgressBet s betId now).bets
        rw [heq]
        exact h
      · show NoWinnerB (checkAndProgressBet s betId now).bets
        rw [heq]
        exact noWinnerB_mapSet h (h betId bet hm)
  | updateBetStatus betId statusText =>
      rcases updateBetStatus_cases s betId statusText with
        heq | ⟨bet, hm, heq⟩
      · show NoWinnerB (updateBetStatus s betId statusText).bets
        rw [heq]
        exact h
      · show NoWinnerB (updateBetStatus s betId statusText).bets
        rw [heq]
        exact noWinnerB_mapSet h (h betId bet hm)
  | addLedgerEntry userId betId amount now => exact h

theorem runOps_noWinner (ops : List Op) (s : BetStore)
    (hops : ops.all noWinnerInput = true) (h : NoWinnerB s.bets) :
    NoWinnerB (runOps s ops).bets := by
  induction ops generalizing s with
  | nil => exact h
  | cons op rest ih =>
      rw [List.all_cons, Bool.and_eq_true] at hops
      exact ih (applyOp s op) hops.2 (applyOp_noWinner s op hops.1 h)

/-- C10 counterexample: the claim says no operation ever assigns
`winnerSide`, but `createBet`'s input type (`Omit` of only id, status,
participants, createdAt) retains the optional `winnerSide`, and the
source spreads it into the new bet: one public operation whose payload
carries `winnerSide = A` produces a stored bet with `winnerSide` defined. -/
theorem createBet_copies_winnerSide :
    (mapLookup (runOps emptyStore [Op.createBet winnerInput 0]).bets
        (genId 0)).map Bet.winnerSide = some (some Side.A) := rfl

/-- C10 amended: no operation other than `createBet`'s verbatim copy of
its input ever assigns `winnerSide`: over any sequence of public
operations whose `createBet` payloads carry no `winnerSide` (as every
call site in the repository does), every bet in the resulting store —
including resolved ones, since `resolveBet` and `voteOnBet` never touch
the field — has `winnerSide = none`. -/
theorem winnerSide_never_assigned (ops : List Op)
    (hops : ops.all noWinnerInput = true) (b : String) (bet : Bet)
    (hb : mapLookup (runOps emptyStore ops).bets b = some bet) :
    bet.winnerSide = none := by
  refine runOps_noWinner ops emptyStore hops ?_ b bet hb
  intro k cur hk
  cases hk

/-- Witness for C10 (amended): a trace that creates, accepts, force-locks,
votes and resolves still leaves `winnerSide` undefined on the resolved
bet. -/
theorem winnerSide_never_assigned_witness :
    (settleOps.all noWinnerInput = true) ∧
    (mapLookup (runOps emptyStore settleOps).bets (genId 0)).map
        Bet.winnerSide = some none := by
  refine ⟨rfl, ?_⟩
  obtain ⟨bet, hb⟩ : ∃ bet,
      mapLookup (runOps emptyStore settleOps).bets (genId 0) = some bet :=
    ⟨_, rfl⟩
  rw [hb]
  simp [winnerSide_never_assigned settleOps rfl (genId 0) bet hb]

/-! ## Claim C9: `acceptBet` checks no authorization at all -/

/-- C9 counterexample: `"mallory"` is not a member of the bet's owning
group (whose members are exactly `["alice"]`), yet their `acceptBet` call
succeeds and mutates the bet's participant list — contradicting the claim
that such a call fails and leaves the bet unchanged. -/
theorem acceptBet_nonmember_accepted :
    (¬ "mallory" ∈ groupG.memberIds) ∧
    (mapLookup storeWithGroup.bets "b").map Bet.groupId = some "g" ∧
    mapLookup storeWithGroup.groups "g" = some groupG ∧
    ((acceptBet storeWithGroup "b" "mallory" Side.A 0).2.map
        (fun bet => bet.participants.map BetParticipant.userId)) =
      some ["mallory"] ∧
    (mapLookup (acceptBet storeWithGroup "b" "mallory" Side.A 0).1.bets
        "b").map (fun bet => bet.participants.map BetParticipant.userId) =
      some ["mallory"] :=
  ⟨by decide, rfl, rfl, rfl, rfl⟩

/-- C9 amended: group membership is *not* an authorization gate for
`acceptBet` — the operation checks nothing about groups.  A call (by a
member or a non-member alike) succeeds whenever the bet exists, is in
`draft`, and the caller is not already a participant; and the result is
entirely independent of the store's `groups` and `groupMembers`
components, so no membership condition is consulted. -/
theorem acceptBet_no_membership_check (s : BetStore) (betId userId : String)
    (side : Side) (now : Nat) (bet : Bet)
    (h : mapLookup s.bets betId = some bet)
    (hd : bet.status = "draft")
    (hp : ∀ p ∈ bet.participants, ¬ p.userId = userId) :
    ((acceptBet s betId userId side now).2).isSome = true ∧
    (∀ gs gm,
      acceptBet { s with groups := gs, groupMembers := gm } betId userId
          side now =
        ({ (acceptBet s betId userId side now).1 with
             groups := gs, groupMembers := gm },
         (acceptBet s betId userId side now).2)) := by
  have hne : ¬ ∃ p ∈ bet.participants, p.userId = userId := by
    simpa using hp
  constructor
  · simp [acceptBet, h, hd, hne]
  · intro gs gm
    obtain ⟨us, gs0, bs, ld, gm0, ni⟩ := s
    simp only at h
    simp [acceptBet, h, hd, hne]

/-- Witness for C9 (amended): the non-member call of the counterexample
store succeeds, independently of the groups data. -/
theorem acceptBet_no_membership_check_witness :
    mapLookup storeWithGroup.bets "b" = some (sampleBet "draft" []) ∧
    (sampleBet "draft" []).status = "draft" ∧
    (∀ p ∈ (sampleBet "draft" []).participants, ¬ p.userId = "mallory") ∧
    (((acceptBet storeWithGroup "b" "mallory" Side.A 0).2).isSome = true ∧
     (∀ gs gm,
       acceptBet { storeWithGroup with groups := gs, groupMembers := gm }
           "b" "mallory" Side.A 0 =
         ({ (acceptBet storeWithGroup "b" "mallory" Side.A 0).1 with
              groups := gs, groupMembers := gm },
          (acceptBet storeWithGroup "b" "mallory" Side.A 0).2))) :=
  ⟨rfl, rfl, by decide,
   acceptBet_no_membership_check storeWithGroup "b" "mallory" Side.A 0
     (sampleBet "draft" []) rfl rfl (by decide)⟩

/-! ## Claim C3: settlement entries are written at most once

The counterexample runs the public interface including `updateBetStatus`;
the amended theorem restricts to the lifecycle core (`isCoreOp`), since
`updateBetStatus` can knock a resolved bet back into a resolvable status
and `addLedgerEntry` writes entries directly. -/

theorem mapLookup_mapSet_ne {β : Type} (m : List (String × β)) {k b : String}
    (hne : ¬ b = k) (v : β) :
    mapLookup (mapSet m k v) b = mapLookup m b := by
  rw [mapLookup_mapSet, if_neg hne]

theorem runOps_append (s : BetStore) (l1 l2 : List Op) :
    runOps s (l1 ++ l2) = runOps (runOps s l1) l2 := by
  simp [runOps]

theorem resolveBet_status_ne (s : BetStore) (bid : String) (w : Side)
    (now : Nat) (b : String) (hne : ¬ b = bid) :
    betStatusOf (resolveBet s bid w now) b = betStatusOf s b := by
  cases hm : mapLookup s.bets bid with
  | none => rw [resolveBet_missing w now hm]
  | some bet =>
      by_cases hr : bet.status = "resolved"
      · rw [resolveBet_already w now hm hr]
      · unfold betStatusOf
        rw [resolveBet_bets_active w now hm hr, mapLookup_mapSet, if_neg hne]

theorem resolveBet_ledgerFor_ne (s : BetStore) (bid : String) (w : Side)
    (now : Nat) (b : String) (hwf : WF s) (hne : ¬ b = bid) :
    ledgerFor (resolveBet s bid w now) b = ledgerFor s b := by
  cases hm : mapLookup s.bets bid with
  | none => rw [resolveBet_missing w now hm]
  | some bet =>
      by_cases hr : bet.status = "resolved"
      · rw [resolveBet_already w now hm hr]
      · have hid : bet.id = bid := (hwf bid bet hm).1
        have hbune : ¬ bet.id = b := by
          rw [hid]
          exact fun hh => hne hh.symm
        unfold ledgerFor
        rw [resolveBet_ledger_active w now hm hr]
        dsimp only
        split
        · rw [List.filter_append, List.filter_append,
            mkBatch_filter_ne _ hbune, mkBatch_filter_ne _ hbune]
          simp
        · rfl

theorem resolveBet_stable (s : BetStore) (bid : String) (w : Side)
    (now : Nat) (b : String) (hwf : WF s) {bet0 : Bet}
    (hb0 : mapLookup s.bets b = some bet0)
    (hst0 : bet0.status = "resolved") :
    betStatusOf (resolveBet s bid w now) b = some "resolved" ∧
    ledgerFor (resolveBet s bid w now) b = ledgerFor s b := by
  have hres : betStatusOf s b = some "resolved" := by
    unfold betStatusOf
    rw [hb0, Option.map_some', hst0]
  by_cases hbb : b = bid
  · subst hbb
    rw [resolveBet_already w now hb0 hst0]
    exact ⟨hres, rfl⟩
  · exact ⟨(resolveBet_status_ne s bid w now b hbb).trans hres,
      resolveBet_ledgerFor_ne s bid w now b hwf hbb⟩

theorem resolveBet_ledger_or_resolved (s : BetStore) (bid : String)
    (w : Side) (now : Nat) (b : String) (hwf : WF s) :
    ledgerFor (resolveBet s bid w now) b = ledgerFor s b ∨
    betStatusOf (resolveBet s bid w now) b = some "resolved" := by
  by_cases hbb : b = bid
  · subst hbb
    cases hm : mapLookup s.bets b with
    | none =>
        left
        rw [resolveBet_missing w now hm]
    | some bet =>
        by_cases hr : bet.status = "resolved"
        · left
          rw [resolveBet_already w now hm hr]
        · right
          exact resolveBet_status_self w now hm hr
  · left
    exact resolveBet_ledgerFor_ne s bid w now b hwf hbb

/-! Preservation of well-formedness by every public operation. -/

theorem resolveBet_wf (s : BetStore) (bid : String) (w : Side) (now : Nat)
    (hwf : WF s) : WF (resolveBet s bid w now) := by
  cases hm : mapLookup s.bets bid with
  | none =>
      rw [resolveBet_missing w now hm]
      exact hwf
  | some bet =>
      by_cases hr : bet.status = "resolved"
      · rw [resolveBet_already w now hm hr]
        exact hwf
      · rw [resolveBet_active w now hm hr]
        dsimp only
        split
        · exact wfb_mono (wfb_update hwf hm rfl)
            ((Nat.le_add_right _ _).trans (Nat.le_add_right _ _))
        · exact wfb_update hwf hm rfl

theorem applyOp_wf (s : BetStore) (op : Op) (hwf : WF s) :
    WF (applyOp s op) := by
  cases op with
  | addUser email displayName avatarUrl =>
      exact wfb_mono hwf (Nat.le_succ _)
  | createGroup name creatorId now =>
      exact wfb_mono hwf (Nat.le_add_right _ 2)
  | joinGroup inviteCode userId =>
      obtain ⟨gs, gm, heq⟩ := joinGroup_shape s inviteCode userId
      show WF (joinGroup s inviteCode userId).1
      rw [heq]
      exact hwf
  | createBet input now =>
      exact wfb_insert hwf rfl (Nat.lt_succ_self _)
  | acceptBet betId userId side now =>
      rcases acceptBet_cases s betId userId side now with
        heq | ⟨bet, hm, _, heq⟩
      · show WF (acceptBet s betId userId side now).1
        rw [heq]
        exact hwf
      · show WF (acceptBet s betId userId side now).1
        rw [heq]
        exact wfb_update hwf hm rfl
  | lockBet betId =>
      rcases lockBet_cases s betId with heq | ⟨bet, hm, _, heq⟩
      · show WF (lockBet s betId)
        rw [heq]
        exact hwf
      · show WF (lockBet s betId)
        rw [heq]
        exact wfb_update hwf hm rfl
  | submitProof betId userId proofText =>
      rcases submitProof_cases s betId userId proofText with
        heq | ⟨bet, hm, _, heq⟩
      · show WF (submitProof s betId userId proofText)
        rw [heq]
        exact hwf
      · show WF (submitProof s betId userId proofText)
        rw [heq]
        exact wfb_update hwf hm rfl
  | voteOnBet betId userId w now =>
      rcases voteOnBet_cases s betId userId w now with heq | heq
      · show WF (voteOnBet s betId userId w now)
        rw [heq]
        exact hwf
      · show WF (voteOnBet s betId userId w now)
        rw [heq]
        exact resolveBet_wf s betId w now hwf
  | resolveBet betId w now => exact resolveBet_wf s betId w now hwf
  | checkAndProgressBet betId now =>
      rcases checkAndProgressBet_cases s betId now with
        heq | ⟨bet, hm, _, st2, _, heq⟩
      · show WF (checkAndProgressBet s betId now)
        rw [heq]
        exact hwf
      · show WF (checkAndProgressBet s betId now)
        rw [heq]
        exact wfb_update hwf hm rfl
  | updateBetStatus betId statusText =>
      rcases updateBetStatus_cases s betId statusText with
        heq | ⟨bet, hm, heq⟩
      · show WF (updateBetStatus s betId statusText)
        rw [heq]
        exact hwf
      · show WF (updateBetStatus s betId statusText)
        rw [heq]
        exact wfb_update hwf hm rfl
  | addLedgerEntry userId betId amount now =>
      exact wfb_mono hwf (Nat.le_succ _)

/-! Once a bet is `resolved`, no core operation changes its status or its
ledger entries. -/

theorem applyOp_resolved_stable (s : BetStore) (op : Op) (b : String)
    (hwf : WF s) (hcore : isCoreOp op = true)
    (hres : betStatusOf s b = some "resolved") :
    betStatusOf (applyOp s op) b = some "resolved" ∧
    ledgerFor (applyOp s op) b = ledgerFor s b := by
  obtain ⟨bet0, hb0, hst0⟩ : ∃ bet0, mapLookup s.bets b = some bet0 ∧
      bet0.status = "resolved" := by
    unfold betStatusOf at hres
    cases hm : mapLookup s.bets b with
    | none =>
        rw [hm] at hres
        cases hres
    | some bet0 =>
        rw [hm, Option.map_some'] at hres
        exact ⟨bet0, rfl, by injection hres⟩
  cases op with
  | addUser email displayName avatarUrl => exact ⟨hres, rfl⟩
  | createGroup name creatorId now => exact ⟨hres, rfl⟩
  | joinGroup inviteCode userId =>
      obtain ⟨gs, gm, heq⟩ := joinGroup_shape s inviteCode userId
      show betStatusOf (joinGroup s inviteCode userId).1 b = _ ∧
        ledgerFor (joinGroup s inviteCode userId).1 b = _
      rw [heq]
      exact ⟨hres, rfl⟩
  | createBet input now =>
      constructor
      · obtain ⟨_, n, hn, hkey⟩ := hwf b bet0 hb0
        have hbne : ¬ b = genId s.nextId := by
          rw [hkey]
          intro hgen
          exact absurd (genId_injective hgen) (by omega)
        unfold betStatusOf
        dsimp only [applyOp, createBet]
        rw [mapLookup_mapSet_ne _ hbne]
        exact hres
      · rfl
  | acceptBet betId userId side now =>
      rcases acceptBet_cases s betId userId side now with
        heq | ⟨bet, hm, hdraft, heq⟩
      · show betStatusOf (acceptBet s betId userId side now).1 b = _ ∧
          ledgerFor (acceptBet s betId userId side now).1 b = _
        rw [heq]
        exact ⟨hres, rfl⟩
      · by_cases hbb : b = betId
        · subst hbb
          have hbet : bet = bet0 := by
            rw [hm] at hb0
            injection hb0
          rw [hbet, hst0] at hdraft
          exact absurd hdraft (by decide)
        · show betStatusOf (acceptBet s betId userId side now).1 b = _ ∧
            ledgerFor (acceptBet s betId userId side now).1 b = _
          rw [heq]
          constructor
          · unfold betStatusOf
            dsimp only
            rw [mapLookup_mapSet_ne _ hbb]
            exact hres
          · rfl
  | lockBet betId =>
      rcases lockBet_cases s betId with heq | ⟨bet, hm, hdraft, heq⟩
      · show betStatusOf (lockBet s betId) b = _ ∧
          ledgerFor (lockBet s betId) b = _
        rw [heq]
        exact ⟨hres, rfl⟩
      · by_cases hbb : b = betId
        · subst hbb
          have hbet : bet = bet0 := by
            rw [hm] at hb0
            injection hb0
          rw [hbet, hst0] at hdraft
          exact absurd hdraft (by decide)
        · show betStatusOf (lockBet s betId) b = _ ∧
            ledgerFor (lockBet s betId) b = _
          rw [heq]
          constructor
          · unfold betStatusOf
            dsimp only
            rw [mapLookup_mapSet_ne _ hbb]
            exact hres
          · rfl
  | submitProof betId userId proofText =>
      rcases submitProof_cases s betId userId proofText with
        heq | ⟨bet, hm, hawait, heq⟩
      · show betStatusOf (submitProof s betId userId proofText) b = _ ∧
          ledgerFor (submitProof s betId userId proofText) b = _
        rw [heq]
        exact ⟨hres, rfl⟩
      · by_cases hbb : b = betId
        · subst hbb
          have hbet : bet = bet0 := by
            rw [hm] at hb0
            injection hb0
          rw [hbet, hst0] at hawait
          exact absurd hawait (by decide)
        · show betStatusOf (submitProof s betId userId proofText) b = _ ∧
            ledgerFor (submitProof s betId userId proofText) b = _
          rw [heq]
          constructor
          · unfold betStatusOf
            dsimp only
            rw [mapLookup_mapSet_ne _ hbb]
            exact hres
          · rfl
  | voteOnBet betId userId w now =>
      rcases voteOnBet_cases s betId userId w now with heq | heq
      · show betStatusOf (voteOnBet s betId userId w now) b = _ ∧
          ledgerFor (voteOnBet s betId userId w now) b = _
        rw [heq]
        exact ⟨hres, rfl⟩
      · show betStatusOf (voteOnBet s betId userId w now) b = _ ∧
          ledgerFor (voteOnBet s betId userId w now) b = _
        rw [heq]
        exact resolveBet_stable s betId w now b hwf hb0 hst0
  | resolveBet betId w now =>
      exact resolveBet_stable s betId w now b hwf hb0 hst0
  | checkAndProgressBet betId now =>
      rcases checkAndProgressBet_cases s betId now with
        heq | ⟨bet, hm, hguard, st2, _, heq⟩
      · show betStatusOf (checkAndProgressBet s betId now) b = _ ∧
          ledgerFor (checkAndProgressBet s betId now) b = _
        rw [heq]
        exact ⟨hres, rfl⟩
      · by_cases hbb : b = betId
        · subst hbb
          have hbet : bet = bet0 := by
            rw [hm] at hb0
            injection hb0
          rw [hbet, hst0] at hguard
          rcases hguard with hg | hg <;> exact absurd hg (by decide)
        · show betStatusOf (checkAndProgressBet s betId now) b = _ ∧
            ledgerFor (checkAndProgressBet s betId now) b = _
          rw [heq]
          constructor
          · unfold betStatusOf
            dsimp only
            rw [mapLookup_mapSet_ne _ hbb]
            exact hres
          · rfl
  | updateBetStatus betId statusText => cases hcore
  | addLedgerEntry userId betId amount now => cases hcore

/-! A core operation that changes a bet's ledger entries leaves the bet
`resolved`. -/

theorem applyOp_ledger_or_resolved (s : BetStore) (op : Op) (b : String)
    (hwf : WF s) (hcore : isCoreOp op = true) :
    ledgerFor (applyOp s op) b = ledgerFor s b ∨
    betStatusOf (applyOp s op) b = some "resolved" := by
  cases op with
  | addUser email displayName avatarUrl => exact Or.inl rfl
  | createGroup name creatorId now => exact Or.inl rfl
  | joinGroup inviteCode userId =>
      obtain ⟨gs, gm, heq⟩ := joinGroup_shape s inviteCode userId
      left
      show ledgerFor (joinGroup s inviteCode userId).1 b = _
      rw [heq]
      rfl
  | createBet input now => exact Or.inl rfl
  | acceptBet betId userId side now =>
      left
      rcases acceptBet_cases s betId userId side now with
        heq | ⟨bet, hm, _, heq⟩ <;>
      · show ledgerFor (acceptBet s betId userId side now).1 b = _
        rw [heq]
        try rfl
  | lockBet betId =>
      left
      rcases lockBet_cases s betId with heq | ⟨bet, hm, _, heq⟩ <;>
      · show ledgerFor (lockBet s betId) b = _
        rw [heq]
        try rfl
  | submitProof betId userId proofText =>
      left
      rcases submitProof_cases s betId userId proofText with
        heq | ⟨bet, hm, _, heq⟩ <;>
      · show ledgerFor (submitProof s betId userId proofText) b = _
        rw [heq]
        try rfl
  | voteOnBet betId userId w now =>
      rcases voteOnBet_cases s betId userId w now with heq | heq
      · left
        show ledgerFor (voteOnBet s betId userId w now) b = _
        rw [heq]
        try rfl
      · show ledgerFor (voteOnBet s betId userId w now) b = _ ∨
          betStatusOf (voteOnBet s betId userId w now) b = _
        rw [heq]
        exact resolveBet_ledger_or_resolved s betId w now b hwf
  | resolveBet betId w now =>
      exact resolveBet_ledger_or_resolved s betId w now b hwf
  | checkAndProgressBet betId now =>
      left
      rcases checkAndProgressBet_cases s betId now with
        heq | ⟨bet, hm, _, st2, _, heq⟩ <;>
      · show ledgerFor (checkAndProgressBet s betId now) b = _
        rw [heq]
        try rfl
  | updateBetStatus betId statusText => cases hcore
  | addLedgerEntry userId betId amount now => cases hcore

/-! Trace-level closure of the two step lemmas. -/

theorem runOps_wf (s : BetStore) (ops : List Op) (hwf : WF s) :
    WF (runOps s ops) := by
  induction ops generalizing s with
  | nil => exact hwf
  | cons op rest ih => exact ih (applyOp s op) (applyOp_wf s op hwf)

theorem runOps_resolved_stable (s : BetStore) (ops : List Op) (b : String)
    (hwf : WF s) (hcore : ops.all isCoreOp = true)
    (hres : betStatusOf s b = some "resolved") :
    betStatusOf (runOps s ops) b = some "resolved" ∧
    ledgerFor (runOps s ops) b = ledgerFor s b := by
  induction ops generalizing s with
  | nil => exact ⟨hres, rfl⟩
  | cons op rest ih =>
      rw [List.all_cons, Bool.and_eq_true] at hcore
      have h1 := applyOp_resolved_stable s op b hwf hcore.1 hres
      have h2 := ih (applyOp s op) (applyOp_wf s op hwf) hcore.2 h1.1
      exact ⟨h2.1, h2.2.trans h1.2⟩

theorem runOps_entries_resolved (s : BetStore) (ops : List Op) (b : String)
    (hwf : WF s) (hcore : ops.all isCoreOp = true)
    (hinv : ¬ ledgerFor s b = [] → betStatusOf s b = some "resolved") :
    ¬ ledgerFor (runOps s ops) b = [] →
      betStatusOf (runOps s ops) b = some "resolved" := by
  induction ops generalizing s with
  | nil => exact hinv
  | cons op rest ih =>
      rw [List.all_cons, Bool.and_eq_true] at hcore
      refine ih (applyOp s op) (applyOp_wf s op hwf) hcore.2 ?_
      intro hne
      by_cases hres : betStatusOf s b = some "resolved"
      · exact (applyOp_resolved_stable s op b hwf hcore.1 hres).1
      · rcases applyOp_ledger_or_resolved s op b hwf hcore.1 with hsame | hr
        · rw [hsame] at hne
          exact absurd (hinv hne) hres
        · exact hr

/-- C3 counterexample: the claim quantifies over the full public
interface, including `updateBetStatus`.  Starting from the empty store,
`settleOps` resolves a two-sided bet by a first vote, producing one batch
of 2 settlement entries; `resettleOps` then uses `updateBetStatus` to
knock the resolved bet back to `locked` and resolves it a second time,
producing a second batch — 4 entries in total for the same bet. -/
theorem ledger_double_settlement :
    (ledgerFor (runOps emptyStore settleOps) (genId 0)).length = 2 ∧
    (ledgerFor (runOps emptyStore (settleOps ++ resettleOps))
        (genId 0)).length = 4 := by
  constructor
  · rfl
  · rfl

/-- C3 amended: over sequences of the lifecycle-core operations — the
public interface minus the raw status override `updateBetStatus` and the
raw `addLedgerEntry` — ledger entries for a bet exist only once the bet
is `resolved` (so they are created only at its resolution), and once it
is resolved its status and its ledger entries never change again, so no
continuation ever produces a second settlement batch for the same bet.
Stated from any well-formed start state whose ledger already satisfies
the invariant. -/
theorem ledger_settled_once (s : BetStore) (b : String) (ops ops' : List Op)
    (hwf : WF s)
    (hcore : ops.all isCoreOp = true) (hcore' : ops'.all isCoreOp = true)
    (hstart : ¬ ledgerFor s b = [] → betStatusOf s b = some "resolved") :
    (¬ ledgerFor (runOps s ops) b = [] →
       betStatusOf (runOps s ops) b = some "resolved") ∧
    (betStatusOf (runOps s ops) b = some "resolved" →
       ledgerFor (runOps s (ops ++ ops')) b =
         ledgerFor (runOps s ops) b) := by
  constructor
  · exact runOps_entries_resolved s ops b hwf hcore hstart
  · intro hres
    rw [runOps_append]
    exact (runOps_resolved_stable (runOps s ops) ops' b
      (runOps_wf s ops hwf) hcore' hres).2

theorem votingStore_wf : WF votingStore := by
  intro k bet h
  simp only [votingStore] at h
  dsimp only [mapLookup] at h
  by_cases hk : genId 0 = k
  · rw [if_pos hk] at h
    injection h with h
    refine ⟨?_, 0, Nat.one_pos, hk.symm⟩
    rw [← h]
    exact hk
  · rw [if_neg hk] at h
    cases h

/-- Witness for C3 (amended): a first (core) resolution of a voting bet,
followed by a second resolution attempt, instantiates both conjuncts. -/
theorem ledger_settled_once_witness :
    (¬ ledgerFor (runOps votingStore [Op.resolveBet (genId 0) Side.A 0])
         (genId 0) = [] →
       betStatusOf (runOps votingStore [Op.resolveBet (genId 0) Side.A 0])
         (genId 0) = some "resolved") ∧
    (betStatusOf (runOps votingStore [Op.resolveBet (genId 0) Side.A 0])
         (genId 0) = some "resolved" →
       ledgerFor (runOps votingStore
           ([Op.resolveBet (genId 0) Side.A 0] ++
            [Op.resolveBet (genId 0) Side.B 1])) (genId 0) =
         ledgerFor (runOps votingStore [Op.resolveBet (genId 0) Side.A 0])
           (genId 0)) :=
  ledger_settled_once votingStore (genId 0)
    [Op.resolveBet (genId 0) Side.A 0] [Op.resolveBet (genId 0) Side.B 1]
    votingStore_wf rfl rfl (fun h => absurd rfl h)

end FriendBets
